import Mathlib

/-!
Verification of the YASP desktop request gateway
(packages/desktop/src-tauri/src/commands/mod.rs).

The development shallowly embeds the validation-and-execution pipeline:
the URL validator (scheme, metadata-host, IP-range and port policy), the
method and header checks of the request executor, and the response-phase
handling (size caps, status handling, UTF-8 decoding) of both the
executor and the spec fetcher.

URL parsing itself is performed by the url crate; we model a parsed URL
as its components (scheme as normalized by the parser, optional host in
the parsed Host representation, optional explicit port).  The library
functions the validator calls (std IpAddr parsing and display, the url
crate host serialization, ipnetwork parsing and containment) are
modelled byte-for-byte from their textual grammars.
-/

/-- Single-quote character, used inside the error message strings. -/
def squo : String := String.singleton (Char.ofNat 39)

/-- Decimal digit character. -/
def digitChar (d : Nat) : Char := Char.ofNat (48 + d)

/-- Lowercase hexadecimal digit character. -/
def hexDigitChar (d : Nat) : Char := if d < 10 then Char.ofNat (48 + d) else Char.ofNat (87 + d)

/-- Decimal representation of an IPv4 octet (a value below 256), as printed
by the std Display instance for Ipv4Addr. -/
def decChars (k : Nat) : List Char :=
  if k < 10 then [digitChar k]
  else if k < 100 then [digitChar (k / 10), digitChar (k % 10)]
  else [digitChar (k / 100), digitChar (k / 10 % 10), digitChar (k % 10)]

/-- Decimal representation of a u16-sized value (ports and HTTP status
codes), as interpolated into the error message strings. -/
def natRepr (n : Nat) : String :=
  String.mk (
    if n < 10 then [digitChar n]
    else if n < 100 then [digitChar (n / 10), digitChar (n % 10)]
    else if n < 1000 then [digitChar (n / 100), digitChar (n / 10 % 10), digitChar (n % 10)]
    else if n < 10000 then
      [digitChar (n / 1000), digitChar (n / 100 % 10), digitChar (n / 10 % 10), digitChar (n % 10)]
    else
      [digitChar (n / 10000 % 10), digitChar (n / 1000 % 10), digitChar (n / 100 % 10),
        digitChar (n / 10 % 10), digitChar (n % 10)])

/-- Lowercase hexadecimal representation of a 16-bit IPv6 group with leading
zeros removed. -/
def hexChars (k : Nat) : List Char :=
  if k < 16 then [hexDigitChar k]
  else if k < 256 then [hexDigitChar (k / 16), hexDigitChar (k % 16)]
  else if k < 4096 then [hexDigitChar (k / 256), hexDigitChar (k / 16 % 16), hexDigitChar (k % 16)]
  else [hexDigitChar (k / 4096 % 16), hexDigitChar (k / 256 % 16), hexDigitChar (k / 16 % 16),
    hexDigitChar (k % 16)]

/-- An IP address: a 32-bit IPv4 value or a 128-bit IPv6 value, modelling
std::net::IpAddr. -/
inductive IpAddr where
  | v4 (addr : Nat)
  | v6 (addr : Nat)
deriving DecidableEq

/-- A parsed URL host in the representation of the url crate: a domain
name, an IPv4 address, or an IPv6 address. -/
inductive UrlHost where
  | domain (s : String)
  | ipv4 (addr : Nat)
  | ipv6 (addr : Nat)
deriving DecidableEq

/-- The components of a successfully parsed URL that validate_url reads:
the scheme (lowercased by the parser), the host, and the explicit port
(None when absent or equal to the default port of the scheme, as with
url::Url::port). -/
structure ParsedUrl where
  scheme : String
  host : Option UrlHost
  port : Option Nat
deriving DecidableEq

/-- Longest prefix of decimal digits together with the rest of the input. -/
def takeDigits : List Char → List Char × List Char
  | [] => ([], [])
  | c :: cs =>
    if c.isDigit then
      let p := takeDigits cs
      (c :: p.1, p.2)
    else ([], c :: cs)

/-- Value of a list of decimal digit characters. -/
def digitsToNat (ds : List Char) : Nat := ds.foldl (fun a c => a * 10 + (c.toNat - 48)) 0

/-- Read one IPv4 octet, as the std parser does: one to three decimal
digits, no leading zero, value at most 255. -/
def parseOctet (cs : List Char) : Option (Nat × List Char) :=
  let p := takeDigits cs
  if p.1 ≠ [] ∧ (p.1.head? = some (Char.ofNat 48) → p.1 = [Char.ofNat 48]) ∧ p.1.length ≤ 3 ∧
      digitsToNat p.1 ≤ 255 then
    some (digitsToNat p.1, p.2)
  else none

/-- Consume one expected character, modelling read_given_char of the std
parser. -/
def expectChar (c : Char) : List Char → Option (List Char)
  | d :: r => if d = c then some r else none
  | [] => none

/-- Read a dotted-quad IPv4 address as two 16-bit groups (the form used
when an IPv4 address terminates an IPv6 address), returning the rest of
the input. -/
def readV4Embedded (cs : List Char) : Option (Nat × Nat × List Char) :=
  match parseOctet cs with
  | none => none
  | some (a, r0) =>
    match expectChar '.' r0 with
    | none => none
    | some r1 =>
      match parseOctet r1 with
      | none => none
      | some (b, r2) =>
        match expectChar '.' r2 with
        | none => none
        | some r3 =>
          match parseOctet r3 with
          | none => none
          | some (c, r4) =>
            match expectChar '.' r4 with
            | none => none
            | some r5 =>
              match parseOctet r5 with
              | none => none
              | some (d, rest) => some (a * 256 + b, c * 256 + d, rest)

/-- Parse a complete IPv4 address string, modelling Ipv4Addr::from_str. -/
def ipv4FromChars (cs : List Char) : Option Nat :=
  match readV4Embedded cs with
  | some (hi, lo, []) => some (hi * 65536 + lo)
  | _ => none

/-- Hexadecimal digit test (either case), as accepted in IPv6 groups. -/
def isHexCharB (c : Char) : Bool :=
  c.isDigit || decide (97 ≤ c.toNat ∧ c.toNat ≤ 102) || decide (65 ≤ c.toNat ∧ c.toNat ≤ 70)

/-- Value of one hexadecimal digit character. -/
def hexVal (c : Char) : Nat :=
  if c.isDigit then c.toNat - 48
  else if 97 ≤ c.toNat then c.toNat - 87
  else c.toNat - 55

/-- Longest prefix of hexadecimal digits together with the rest. -/
def takeHexChars : List Char → List Char × List Char
  | [] => ([], [])
  | c :: cs =>
    if isHexCharB c then
      let p := takeHexChars cs
      (c :: p.1, p.2)
    else ([], c :: cs)

/-- Value of a list of hexadecimal digit characters. -/
def hexDigitsToNat (ds : List Char) : Nat := ds.foldl (fun a c => a * 16 + hexVal c) 0

/-- Read one 16-bit IPv6 group: one to four hexadecimal digits (leading
zeros permitted). -/
def parseHexGroup (cs : List Char) : Option (Nat × List Char) :=
  let p := takeHexChars cs
  if p.1 ≠ [] ∧ p.1.length ≤ 4 then some (hexDigitsToNat p.1, p.2) else none

/-- Read a colon-separated run of IPv6 groups, modelling read_groups of
the std parser: the first group carries no separator, a trailing
embedded IPv4 address may fill the last two slots, and reading stops
(restoring the separator) when no further group parses.  Returns the
groups, whether the run ended in an embedded IPv4 address, and the rest
of the input. -/
def readGroups : Nat → Bool → List Char → List Nat × Bool × List Char
  | 0, _, cs => ([], false, cs)
  | limp + 1, isFirst, cs =>
    let sep : Option (List Char) := if isFirst then some cs else expectChar ':' cs
    match sep with
    | none => ([], false, cs)
    | some cs1 =>
      match (if 1 ≤ limp then readV4Embedded cs1 else none) with
      | some (g1, g2, rest) => ([g1, g2], true, rest)
      | none =>
        match parseHexGroup cs1 with
        | some (g, rest) =>
          let p := readGroups limp false rest
          (g :: p.1, p.2.1, p.2.2)
        | none => ([], false, cs)

/-- Big-endian value of a list of 16-bit groups. -/
def groupsToNat (gs : List Nat) : Nat := gs.foldl (fun a g => a * 65536 + g) 0

/-- Parse a complete IPv6 address string, modelling Ipv6Addr::from_str:
up to eight groups, with a single double-colon standing for at least one
zero group, and full consumption of the input. -/
def ipv6FromChars (cs : List Char) : Option Nat :=
  let h := readGroups 8 true cs
  if h.1.length = 8 then
    if h.2.2 = [] then some (groupsToNat h.1) else none
  else if h.2.1 then none
  else
    match expectChar ':' h.2.2 with
    | none => none
    | some r1 =>
      match expectChar ':' r1 with
      | none => none
      | some rest2 =>
        let t := readGroups (7 - h.1.length) true rest2
        if t.2.2 = [] then
          some (groupsToNat (h.1 ++ List.replicate (8 - h.1.length - t.1.length) 0 ++ t.1))
        else none

/-- Parse an IP address string, modelling IpAddr::from_str: first as
IPv4, then as IPv6. -/
def ipAddrFromChars (cs : List Char) : Option IpAddr :=
  match ipv4FromChars cs with
  | some n => some (.v4 n)
  | none =>
    match ipv6FromChars cs with
    | some n => some (.v6 n)
    | none => none

/-- Parse an IP address from a string. -/
def ipAddrFromStr (s : String) : Option IpAddr := ipAddrFromChars s.data

/-- Dotted-quad character representation of a 32-bit IPv4 value. -/
def ipv4Chars (n : Nat) : List Char :=
  decChars (n / 16777216 % 256) ++ '.' :: (decChars (n / 65536 % 256) ++
    '.' :: (decChars (n / 256 % 256) ++ '.' :: decChars (n % 256)))

/-- The eight 16-bit groups of a 128-bit IPv6 value. -/
def v6Groups (n : Nat) : List Nat :=
  [n / 2 ^ 112 % 65536, n / 2 ^ 96 % 65536, n / 2 ^ 80 % 65536, n / 2 ^ 64 % 65536,
    n / 2 ^ 48 % 65536, n / 2 ^ 32 % 65536, n / 2 ^ 16 % 65536, n % 65536]

/-- Length of the zero-group run starting at the head of the list. -/
def runLen : List Nat → Nat
  | [] => 0
  | g :: gs => if g = 0 then runLen gs + 1 else 0

/-- Start index and length of the longest run of zero groups, preferring
the leftmost run on ties, as the url crate IPv6 serializer does. -/
def bestZeroRun : List Nat → Nat → Nat × Nat
  | [], _ => (0, 0)
  | g :: gs, i =>
    let cur := runLen (g :: gs)
    let best := bestZeroRun gs (i + 1)
    if best.2 > cur then best else (i, cur)

/-- Join group representations with colon separators. -/
def joinColon : List (List Char) → List Char
  | [] => []
  | [g] => g
  | g :: gs => g ++ ':' :: joinColon gs

/-- Canonical textual form of an IPv6 value as written by the url crate
serializer: lowercase hexadecimal groups, the longest run of two or more
zero groups compressed to a double colon. -/
def ipv6Chars (n : Nat) : List Char :=
  let gs := v6Groups n
  let b := bestZeroRun gs 0
  if b.2 ≥ 2 then
    joinColon ((gs.take b.1).map hexChars) ++ ':' :: ':' :: joinColon ((gs.drop (b.1 + b.2)).map hexChars)
  else joinColon (gs.map hexChars)

/-- The host string of a parsed URL, as returned by url::Url::host_str:
domains verbatim, IPv4 addresses in dotted-quad form, and IPv6 addresses
between square brackets. -/
def hostStr : UrlHost → String
  | .domain s => s
  | .ipv4 n => String.mk (ipv4Chars n)
  | .ipv6 n => String.mk ('[' :: ipv6Chars n ++ [']'])

/-- Display form of an IpAddr as interpolated into error messages by the
std Display instances; IPv4-mapped IPv6 addresses use the mixed form. -/
def ipDisplay : IpAddr → String
  | .v4 n => String.mk (ipv4Chars n)
  | .v6 n =>
    if n / 2 ^ 32 = 65535 then "::ffff:" ++ String.mk (ipv4Chars (n % 2 ^ 32))
    else String.mk (ipv6Chars n)

/-- An IP network, modelling ipnetwork::IpNetwork: a base address and a
count of leading bits. -/
inductive IpNetwork where
  | v4 (addr : Nat) (plen : Nat)
  | v6 (addr : Nat) (plen : Nat)
deriving DecidableEq

/-- Split at the first slash, returning the part before it and, when a
slash is present, the part after it. -/
def splitSlash : List Char → List Char × Option (List Char)
  | [] => ([], none)
  | c :: cs =>
    if c = '/' then ([], some cs)
    else
      let p := splitSlash cs
      (c :: p.1, p.2)

/-- Parse a decimal natural number (the CIDR length field). -/
def parseDecNat (cs : List Char) : Option Nat :=
  if cs ≠ [] ∧ cs.all Char.isDigit then some (digitsToNat cs) else none

/-- Parse a CIDR range string, modelling IpNetwork::from_str: an address,
optionally followed by a slash and a length bounded by the address
width. -/
def ipNetworkFromStr (s : String) : Option IpNetwork :=
  let p := splitSlash s.data
  match ipAddrFromChars p.1 with
  | some (.v4 a) =>
    match p.2 with
    | none => some (.v4 a 32)
    | some ps =>
      match parseDecNat ps with
      | some pl => if pl ≤ 32 then some (.v4 a pl) else none
      | none => none
  | some (.v6 a) =>
    match p.2 with
    | none => some (.v6 a 128)
    | some ps =>
      match parseDecNat ps with
      | some pl => if pl ≤ 128 then some (.v6 a pl) else none
      | none => none
  | none => none

/-- Network membership, modelling IpNetwork::contains: the address
families must match and the leading plen bits must agree. -/
def netContains : IpNetwork → IpAddr → Bool
  | .v4 a pl, .v4 ip => decide (ip / 2 ^ (32 - pl) = a / 2 ^ (32 - pl))
  | .v6 a pl, .v6 ip => decide (ip / 2 ^ (128 - pl) = a / 2 ^ (128 - pl))
  | _, _ => false

/-- Blocked cloud-metadata host literals, from validate_url. -/
def blocked_hosts : List String :=
  ["169.254.169.254", "metadata.google.internal", "fd00:ec2::254", "100.100.100.200"]

/-- Blocked private, loopback, link-local and test CIDR ranges, from
check_ip_allowed. -/
def private_ranges : List String :=
  ["10.0.0.0/8", "172.16.0.0/12", "192.168.0.0/16", "127.0.0.0/8", "::1/128", "169.254.0.0/16",
    "fc00::/7", "fe80::/10", "100.64.0.0/10", "198.51.100.0/24", "203.0.113.0/24"]

/-- Blocked outbound ports, from validate_url. -/
def dangerous_ports : List Nat := [22, 23, 25, 110, 143, 3306, 5432, 6379, 27017]

/-- Error message for a disallowed scheme. -/
def schemeMsg (scheme : String) : String :=
  "Disallowed URL scheme: " ++ squo ++ scheme ++ squo ++ ". Only http/https are permitted."

/-- Error message for a blocked metadata host. -/
def blockedHostMsg (host : String) : String :=
  "Blocked host: " ++ squo ++ host ++ squo ++ " is a cloud metadata endpoint."

/-- Error message for an IP in a blocked range. -/
def blockedIpMsg (ip : IpAddr) (range : String) : String :=
  "Blocked IP: " ++ ipDisplay ip ++ " is in private range " ++ range ++
    ". Direct access to internal networks is not permitted."

/-- Error message for a blocked port. -/
def blockedPortMsg (p : Nat) : String :=
  "Blocked port: " ++ natRepr p ++ " is not allowed for outbound requests."

/-- Walk the range list as the loop in check_ip_allowed does: ranges that
fail to parse are skipped, and the first range containing the address
aborts with an error. -/
def checkRanges (ip : IpAddr) : List String → Except String Unit
  | [] => .ok ()
  | range :: rest =>
    match ipNetworkFromStr range with
    | some network =>
      if netContains network ip then .error (blockedIpMsg ip range) else checkRanges ip rest
    | none => checkRanges ip rest

/-- Embedding of check_ip_allowed. -/
def check_ip_allowed (ip : IpAddr) : Except String Unit := checkRanges ip private_ranges

/-- Convenience form of the same policy: true when some blocked range
contains the address. -/
def ipInBlockedRanges (ip : IpAddr) : Bool :=
  private_ranges.any fun range =>
    match ipNetworkFromStr range with
    | some network => netContains network ip
    | none => false

/-- Port step of validate_url: an explicit port is checked against the
denylist; absent ports skip the check and the parsed URL is returned. -/
def portStep (u : ParsedUrl) : Except String ParsedUrl :=
  match u.port with
  | some p => if dangerous_ports.contains p then .error (blockedPortMsg p) else .ok u
  | none => .ok u

/-- Embedding of validate_url, over the components of an already parsed
URL (the parse step itself is the url crate; a string that fails to
parse is rejected before any of these checks run). -/
def validate_url (u : ParsedUrl) : Except String ParsedUrl :=
  if u.scheme = "http" ∨ u.scheme = "https" then
    match u.host with
    | none => .error ("URL has no host")
    | some h =>
      let host := hostStr h
      if blocked_hosts.contains host then .error (blockedHostMsg host)
      else
        match ipAddrFromStr host with
        | some ip =>
          match check_ip_allowed ip with
          | .error e => .error e
          | .ok _ => portStep u
        | none => portStep u
  else .error (schemeMsg u.scheme)

/-- ASCII uppercasing of a string, modelling String::to_uppercase on the
ASCII method names the executor deals with. -/
def toUpperStr (s : String) : String := String.mk (s.data.map Char.toUpper)

/-- Allowed HTTP methods of execute_api_request. -/
def allowed_methods : List String :=
  ["GET", "POST", "PUT", "PATCH", "DELETE", "HEAD", "OPTIONS"]

/-- Error message for a method outside the allowed set (the typo is in
the source). -/
def methodErrMsg (method : String) : String :=
  "Unsallowed HTTP method: " ++ squo ++ method ++ squo

/-- Valid bytes of a header name, from the http crate HeaderName table:
letters, digits, and the token punctuation characters. -/
def isHeaderNameChar (c : Char) : Bool :=
  decide (48 ≤ c.toNat ∧ c.toNat ≤ 57) || decide (97 ≤ c.toNat ∧ c.toNat ≤ 122) ||
    decide (65 ≤ c.toNat ∧ c.toNat ≤ 90) ||
    [33, 35, 36, 37, 38, 39, 42, 43, 45, 46, 94, 95, 96, 124, 126].contains c.toNat

/-- Validity of a header name for HeaderName::from_bytes: nonempty and
token characters only. -/
def headerNameValid (k : String) : Bool := !k.data.isEmpty && k.data.all isHeaderNameChar

/-- Validity of a header value for HeaderValue::from_str: tab or any
character that is not a control character. -/
def headerValueValid (v : String) : Bool :=
  v.data.all fun c => c.toNat = 9 || decide (32 ≤ c.toNat ∧ c.toNat ≠ 127)

/-- Header loop of execute_api_request: the first invalid name or value
aborts with an error naming the offending key. -/
def checkHeaders : List (String × String) → Except String Unit
  | [] => .ok ()
  | (k, v) :: rest =>
    if headerNameValid k = false then .error ("Invalid header name: " ++ squo ++ k ++ squo)
    else if headerValueValid v = false then
      .error ("Invalid header value for " ++ squo ++ k ++ squo)
    else checkHeaders rest

/-- Standard method names recognized directly by Method::from_bytes. -/
def standard_methods : List String :=
  ["GET", "PUT", "POST", "HEAD", "PATCH", "TRACE", "DELETE", "OPTIONS", "CONNECT"]

/-- Valid token bytes for extension methods in Method::from_bytes. -/
def isMethodChar (c : Char) : Bool :=
  decide (48 ≤ c.toNat ∧ c.toNat ≤ 57) || decide (97 ≤ c.toNat ∧ c.toNat ≤ 122) ||
    decide (65 ≤ c.toNat ∧ c.toNat ≤ 90) ||
    [33, 35, 36, 37, 38, 39, 42, 43, 45, 46, 94, 95, 96, 124, 126].contains c.toNat

/-- Model of reqwest::Method::from_bytes: a standard method name, or a
nonempty token of valid method characters. -/
def methodFromBytes (s : String) : Option String :=
  if standard_methods.contains s then some s
  else if s.data ≠ [] ∧ s.data.all isMethodChar then some s else none

/-- The validated inputs of a dispatched request. -/
structure PreparedRequest where
  url : ParsedUrl
  method : String
  headers : List (String × String)
deriving DecidableEq

/-- Pre-dispatch pipeline of execute_api_request: URL validation, the
allowed-method check, the header loop, and the Method::from_bytes
conversion, in source order.  (The client construction between the
method check and the header loop has no failure path that depends on the
inputs and is not modelled.) -/
def execute_request_pre (method : String) (u : ParsedUrl) (headers : List (String × String)) :
    Except String PreparedRequest :=
  match validate_url u with
  | .error e => .error e
  | .ok parsed =>
    let method_upper := toUpperStr method
    if allowed_methods.contains method_upper = false then .error (methodErrMsg method)
    else
      match checkHeaders headers with
      | .error e => .error e
      | .ok _ =>
        match methodFromBytes method_upper with
        | none => .error ("Invalid method: invalid method name")
        | some m => .ok ⟨parsed, m, headers⟩

/-- Continuation byte test for UTF-8. -/
abbrev isCont (b : Nat) : Prop := 128 ≤ b ∧ b ≤ 191

/-- Decode one UTF-8 encoded scalar value from the head of a byte
sequence, modelling one step of the std validator: overlong forms,
surrogate code points and values beyond U+10FFFF are rejected.  The
two, three and four byte continuations are handled by the helpers
below. -/
def decodeTwo (b0 : Nat) : List Nat → Option (Nat × List Nat)
  | b1 :: r1 => if isCont b1 then some ((b0 - 192) * 64 + (b1 - 128), r1) else none
  | [] => none

/-- Three-byte continuation of decodeOne. -/
def decodeThree (b0 : Nat) : List Nat → Option (Nat × List Nat)
  | b1 :: b2 :: r2 =>
    let w := (b0 - 224) * 4096 + (b1 - 128) * 64 + (b2 - 128)
    if isCont b1 ∧ isCont b2 ∧ 2048 ≤ w ∧ (w < 55296 ∨ 57344 ≤ w) then some (w, r2) else none
  | _ => none

/-- Four-byte continuation of decodeOne. -/
def decodeFour (b0 : Nat) : List Nat → Option (Nat × List Nat)
  | b1 :: b2 :: b3 :: r3 =>
    let w := (b0 - 240) * 262144 + (b1 - 128) * 4096 + (b2 - 128) * 64 + (b3 - 128)
    if isCont b1 ∧ isCont b2 ∧ isCont b3 ∧ 65536 ≤ w ∧ w < 1114112 then some (w, r3) else none
  | _ => none

/-- One decoding step: scalar value and remaining bytes, or None when the
head of the sequence is ill-formed. -/
def decodeOne : List Nat → Option (Nat × List Nat)
  | [] => none
  | b0 :: rest =>
    if b0 < 128 then some (b0, rest)
    else if 194 ≤ b0 ∧ b0 ≤ 223 then decodeTwo b0 rest
    else if 224 ≤ b0 ∧ b0 ≤ 239 then decodeThree b0 rest
    else if 240 ≤ b0 ∧ b0 ≤ 244 then decodeFour b0 rest
    else none

/-- Valid second byte of a three-byte sequence for a given lead byte,
from the UTF-8 byte-range table (E0 excludes overlongs, ED excludes
surrogates). -/
abbrev valid3b1 (b0 b1 : Nat) : Prop :=
  if b0 = 224 then 160 ≤ b1 ∧ b1 ≤ 191
  else if b0 = 237 then 128 ≤ b1 ∧ b1 ≤ 159
  else isCont b1

/-- Valid second byte of a four-byte sequence for a given lead byte,
from the UTF-8 byte-range table (F0 excludes overlongs, F4 caps at
U+10FFFF). -/
abbrev valid4b1 (b0 b1 : Nat) : Prop :=
  if b0 = 240 then 144 ≤ b1 ∧ b1 ≤ 191
  else if b0 = 244 then 128 ≤ b1 ∧ b1 ≤ 143
  else isCont b1

/-- Skip past a valid continuation byte (used after a maximal subpart of
two or three bytes). -/
def skipTail : List Nat → List Nat
  | [] => []
  | b2 :: r2 => if isCont b2 then r2 else b2 :: r2

/-- Maximal-subpart skip after a three-byte lead. -/
def skipThree (b0 : Nat) : List Nat → List Nat
  | [] => []
  | b1 :: r1 => if valid3b1 b0 b1 then skipTail r1 else b1 :: r1

/-- Maximal-subpart skip after a four-byte lead. -/
def skipFour (b0 : Nat) : List Nat → List Nat
  | [] => []
  | b1 :: r1 => if valid4b1 b0 b1 then skipTail r1 else b1 :: r1

/-- Bytes remaining after discarding the maximal subpart of an
ill-formed sequence at the head, following the substitution policy of
String::from_utf8_lossy: a three or four byte lead consumes its valid
continuation prefix, every other failure consumes one byte. -/
def skipInvalid : List Nat → List Nat
  | [] => []
  | b0 :: rest =>
    if 224 ≤ b0 ∧ b0 ≤ 239 then skipThree b0 rest
    else if 240 ≤ b0 ∧ b0 ≤ 244 then skipFour b0 rest
    else rest

theorem decodeTwo_length (b0 : Nat) :
    ∀ l w r, decodeTwo b0 l = some (w, r) → r.length < l.length := by
  intro l w r h
  cases l with
  | nil => simp [decodeTwo] at h
  | cons b1 r1 =>
    simp only [decodeTwo] at h
    split at h
    · simp only [Option.some.injEq, Prod.mk.injEq] at h
      obtain ⟨-, h2⟩ := h
      subst h2
      simp
    · simp at h

theorem decodeThree_length (b0 : Nat) :
    ∀ l w r, decodeThree b0 l = some (w, r) → r.length < l.length := by
  intro l w r h
  match l with
  | [] => simp [decodeThree] at h
  | [b1] => simp [decodeThree] at h
  | b1 :: b2 :: r2 =>
    simp only [decodeThree] at h
    split at h
    · simp only [Option.some.injEq, Prod.mk.injEq] at h
      obtain ⟨-, h2⟩ := h
      subst h2
      simp
      omega
    · simp at h

theorem decodeFour_length (b0 : Nat) :
    ∀ l w r, decodeFour b0 l = some (w, r) → r.length < l.length := by
  intro l w r h
  match l with
  | [] => simp [decodeFour] at h
  | [b1] => simp [decodeFour] at h
  | [b1, b2] => simp [decodeFour] at h
  | b1 :: b2 :: b3 :: r3 =>
    simp only [decodeFour] at h
    split at h
    · simp only [Option.some.injEq, Prod.mk.injEq] at h
      obtain ⟨-, h2⟩ := h
      subst h2
      simp
      omega
    · simp at h

theorem decodeOne_length :
    ∀ bs w r, decodeOne bs = some (w, r) → r.length < bs.length := by
  intro bs w r h
  cases bs with
  | nil => simp [decodeOne] at h
  | cons b0 rest =>
    simp only [decodeOne] at h
    split at h
    · simp only [Option.some.injEq, Prod.mk.injEq] at h
      obtain ⟨-, h2⟩ := h
      subst h2
      simp
    · split at h
      · have := decodeTwo_length b0 rest w r h
        simp
        omega
      · split at h
        · have := decodeThree_length b0 rest w r h
          simp
          omega
        · split at h
          · have := decodeFour_length b0 rest w r h
            simp
            omega
          · simp at h

theorem skipTail_le (l : List Nat) : (skipTail l).length ≤ l.length := by
  cases l with
  | nil => simp [skipTail]
  | cons b2 r2 =>
    simp only [skipTail]
    split <;> simp

theorem skipThree_le (b0 : Nat) (l : List Nat) : (skipThree b0 l).length ≤ l.length := by
  cases l with
  | nil => simp [skipThree]
  | cons b1 r1 =>
    simp only [skipThree]
    split
    · have := skipTail_le r1
      simp
      omega
    · simp

theorem skipFour_le (b0 : Nat) (l : List Nat) : (skipFour b0 l).length ≤ l.length := by
  cases l with
  | nil => simp [skipFour]
  | cons b1 r1 =>
    simp only [skipFour]
    split
    · have := skipTail_le r1
      simp
      omega
    · simp

theorem skipInvalid_lt (b0 : Nat) (rest : List Nat) :
    (skipInvalid (b0 :: rest)).length < (b0 :: rest).length := by
  simp only [skipInvalid]
  split
  · have := skipThree_le b0 rest
    simp
    omega
  · split
    · have := skipFour_le b0 rest
      simp
      omega
    · simp

/-- Strict UTF-8 decoding of a byte sequence into scalar values,
modelling String::from_utf8: the sequence decodes step by step or the
whole decode fails. -/
def utf8Decode (bs : List Nat) : Option (List Nat) :=
  match bs with
  | [] => some []
  | b0 :: rest0 =>
    match h2 : decodeOne (b0 :: rest0) with
    | some (w, rest) => (utf8Decode rest).map (w :: ·)
    | none => none
termination_by bs.length
decreasing_by exact decodeOne_length _ _ _ h2

/-- Lossy UTF-8 decoding, modelling String::from_utf8_lossy: each
maximal subpart of an ill-formed sequence is replaced by U+FFFD and
decoding continues, so the function is total. -/
def utf8DecodeLossy (bs : List Nat) : List Nat :=
  match bs with
  | [] => []
  | b0 :: rest0 =>
    match h2 : decodeOne (b0 :: rest0) with
    | some (w, rest) => w :: utf8DecodeLossy rest
    | none => 65533 :: utf8DecodeLossy (skipInvalid (b0 :: rest0))
termination_by bs.length
decreasing_by
  · exact decodeOne_length _ _ _ (by assumption)
  · exact skipInvalid_lt _ _

/-- Unicode scalar value: any code point that is not a surrogate and is
at most U+10FFFF. -/
abbrev IsScalar (v : Nat) : Prop := v < 55296 ∨ (57344 ≤ v ∧ v < 1114112)

/-- A sequence of Unicode scalar values (the model of a Rust String). -/
def ScalarList (vs : List Nat) : Prop := ∀ v ∈ vs, IsScalar v

/-- UTF-8 encoding of one scalar value. -/
def utf8EncodeChar (v : Nat) : List Nat :=
  if v < 128 then [v]
  else if v < 2048 then [192 + v / 64, 128 + v % 64]
  else if v < 65536 then [224 + v / 4096, 128 + v / 64 % 64, 128 + v % 64]
  else [240 + v / 262144, 128 + v / 4096 % 64, 128 + v / 64 % 64, 128 + v % 64]

/-- UTF-8 encoding of a sequence of scalar values. -/
def utf8Encode : List Nat → List Nat
  | [] => []
  | v :: vs => utf8EncodeChar v ++ utf8Encode vs

/-- Response size cap of execute_api_request. -/
def MAX_BODY_BYTES : Nat := 10 * 1024 * 1024

/-- Response size cap of fetch_spec. -/
def MAX_SPEC_BYTES : Nat := 5 * 1024 * 1024

/-- A normalized response, as returned to the frontend; the body is the
sequence of scalar values of the decoded text. -/
structure ApiResponse where
  status : Nat
  status_text : String
  headers : List (String × String)
  body : List Nat
  duration_ms : Nat
deriving DecidableEq

/-- An HTTP response as delivered by the network client: status code,
the canonical reason phrase when one exists, the textual response
headers, and the raw body bytes. -/
structure HttpResponse where
  status : Nat
  canonicalReason : Option String
  headers : List (String × String)
  bodyBytes : List Nat
deriving DecidableEq

/-- Response phase of execute_api_request: the canonical reason falls
back to Unknown, the body is capped at 10 MB, and the body text is
decoded lossily. -/
def execute_response_phase (r : HttpResponse) (duration_ms : Nat) : Except String ApiResponse :=
  let status_text := r.canonicalReason.getD ("Unknown")
  if r.bodyBytes.length > MAX_BODY_BYTES then .error ("Response body exceeds 10MB limit.")
  else .ok ⟨r.status, status_text, r.headers, utf8DecodeLossy r.bodyBytes, duration_ms⟩

/-- Response phase of fetch_spec: any non-2xx status is a hard error
carrying the numeric status, the body is capped at 5 MB, and the body
must decode as strict UTF-8. -/
def fetch_spec_response_phase (r : HttpResponse) : Except String (List Nat) :=
  if ¬(200 ≤ r.status ∧ r.status < 300) then
    .error ("Failed to fetch spec: HTTP " ++ natRepr r.status)
  else if r.bodyBytes.length > MAX_SPEC_BYTES then .error ("Spec file exceeds 5MB limit.")
  else
    match utf8Decode r.bodyBytes with
    | some vs => .ok vs
    | none => .error ("Spec content is not valid UTF-8.")

theorem strData_append (a b : String) : (a ++ b).data = a.data ++ b.data := by
  cases a; cases b; rfl

theorem takeDigits_of_all (l rest : List Char) (h1 : ∀ c ∈ l, c.isDigit = true)
    (h2 : ∀ c, rest.head? = some c → c.isDigit = false) :
    takeDigits (l ++ rest) = (l, rest) := by
  induction l with
  | nil =>
    cases rest with
    | nil => rfl
    | cons c cs =>
      have hc := h2 c rfl
      simp [takeDigits, hc]
  | cons c cs ih =>
    have hc := h1 c (by simp)
    simp only [List.cons_append, takeDigits, hc, if_true, List.append_eq]
    rw [ih (fun x hx => h1 x (by simp [hx]))]

set_option maxRecDepth 8192 in
theorem decChars_spec : ∀ k, k < 256 →
    ((decChars k).all Char.isDigit = true ∧ decChars k ≠ [] ∧
      ((decChars k).head? = some (Char.ofNat 48) → decChars k = [Char.ofNat 48]) ∧
      (decChars k).length ≤ 3 ∧ digitsToNat (decChars k) = k) := by
  decide

theorem parseOctet_decChars (k : Nat) (hk : k < 256) (rest : List Char)
    (h2 : ∀ c, rest.head? = some c → c.isDigit = false) :
    parseOctet (decChars k ++ rest) = some (k, rest) := by
  obtain ⟨hall, hne, hzero, hlen, hval⟩ := decChars_spec k hk
  have hall' : ∀ c ∈ decChars k, c.isDigit = true := by
    intro c hc; exact List.all_eq_true.mp hall c hc
  simp only [parseOctet, takeDigits_of_all _ _ hall' h2]
  rw [if_pos ⟨hne, hzero, hlen, by omega⟩, hval]

theorem dotHead (xs : List Char) : ∀ c, ('.' :: xs).head? = some c → c.isDigit = false := by
  intro c h
  simp at h
  subst h
  decide

theorem nilHead : ∀ c, ([] : List Char).head? = some c → c.isDigit = false := by
  intro c h
  simp at h

theorem expectChar_cons (c : Char) (r : List Char) : expectChar c (c :: r) = some r := by
  simp [expectChar]

theorem parseOctet_decChars_nil (k : Nat) (hk : k < 256) : parseOctet (decChars k) = some (k, []) := by
  have h := parseOctet_decChars k hk [] nilHead
  simpa using h

theorem readV4Embedded_chars (n : Nat) (hn : n < 4294967296) :
    readV4Embedded (ipv4Chars n) =
      some ((n / 16777216 % 256) * 256 + n / 65536 % 256,
        (n / 256 % 256) * 256 + n % 256, []) := by
  have h1 : n / 16777216 % 256 < 256 := Nat.mod_lt _ (by omega)
  have h2 : n / 65536 % 256 < 256 := Nat.mod_lt _ (by omega)
  have h3 : n / 256 % 256 < 256 := Nat.mod_lt _ (by omega)
  have h4 : n % 256 < 256 := Nat.mod_lt _ (by omega)
  simp only [ipv4Chars, readV4Embedded]
  rw [parseOctet_decChars _ h1 _ (dotHead _)]
  dsimp only
  rw [expectChar_cons]
  dsimp only
  rw [parseOctet_decChars _ h2 _ (dotHead _)]
  dsimp only
  rw [expectChar_cons]
  dsimp only
  rw [parseOctet_decChars _ h3 _ (dotHead _)]
  dsimp only
  rw [expectChar_cons]
  dsimp only
  rw [parseOctet_decChars_nil _ h4]

theorem ipAddrFromStr_ipv4 (n : Nat) (hn : n < 4294967296) :
    ipAddrFromStr (String.mk (ipv4Chars n)) = some (.v4 n) := by
  have h := readV4Embedded_chars n hn
  simp only [ipAddrFromStr, ipAddrFromChars, ipv4FromChars, h]
  have : (n / 16777216 % 256 * 256 + n / 65536 % 256) * 65536 +
      (n / 256 % 256 * 256 + n % 256) = n := by omega
  rw [this]

theorem takeDigits_bracket (l : List Char) : takeDigits ('[' :: l) = ([], '[' :: l) := by
  simp [takeDigits, show ('[').isDigit = false from rfl]

theorem parseOctet_bracket (l : List Char) : parseOctet ('[' :: l) = none := by
  simp [parseOctet, takeDigits_bracket]

theorem readV4Embedded_bracket (l : List Char) : readV4Embedded ('[' :: l) = none := by
  simp [readV4Embedded, parseOctet_bracket]

theorem parseHexGroup_bracket (l : List Char) : parseHexGroup ('[' :: l) = none := by
  simp [parseHexGroup, takeHexChars, show isHexCharB ('[') = false from rfl]

theorem readGroups_bracket (l : List Char) :
    readGroups 8 true ('[' :: l) = ([], false, '[' :: l) := by
  rw [show (8 : Nat) = 7 + 1 from rfl, readGroups]
  simp [readV4Embedded_bracket, parseHexGroup_bracket]

theorem ipv6FromChars_bracket (l : List Char) : ipv6FromChars ('[' :: l) = none := by
  simp only [ipv6FromChars, readGroups_bracket]
  simp [expectChar, show ('[' = ':') = False from by simp]

theorem ipAddrFromChars_bracket (l : List Char) : ipAddrFromChars ('[' :: l) = none := by
  simp [ipAddrFromChars, ipv4FromChars, readV4Embedded_bracket, ipv6FromChars_bracket]

theorem checkRanges_ok (ip : IpAddr) :
    ∀ rs : List String,
      (rs.any fun r =>
        match ipNetworkFromStr r with
        | some network => netContains network ip
        | none => false) = false →
      checkRanges ip rs = .ok () := by
  intro rs
  induction rs with
  | nil => intro _; rfl
  | cons r rest ih =>
    intro h
    simp only [List.any_cons, Bool.or_eq_false_iff] at h
    obtain ⟨h1, h2⟩ := h
    simp only [checkRanges]
    cases heq : ipNetworkFromStr r with
    | none => exact ih h2
    | some net =>
      rw [heq] at h1
      dsimp only at h1
      dsimp only
      rw [if_neg (by simp [h1])]
      exact ih h2

theorem check_ip_allowed_ok (ip : IpAddr) (h : ipInBlockedRanges ip = false) :
    check_ip_allowed ip = .ok () :=
  checkRanges_ok ip private_ranges h

theorem validate_url_hostcase (s : String) (h : UrlHost) (p : Option Nat)
    (hs : s = "http" ∨ s = "https") :
    validate_url ⟨s, some h, p⟩ =
      (if blocked_hosts.contains (hostStr h) then .error (blockedHostMsg (hostStr h))
       else
         match ipAddrFromStr (hostStr h) with
         | some ip =>
           match check_ip_allowed ip with
           | .error e => .error e
           | .ok _ => portStep ⟨s, some h, p⟩
         | none => portStep ⟨s, some h, p⟩) := by
  simp only [validate_url, if_pos hs]

/-- Claim C4: every parsed URL whose scheme is neither http nor https is
rejected by validate_url with an error naming the disallowed scheme. -/
theorem validate_rejects_non_http_schemes (u : ParsedUrl)
    (h1 : u.scheme ≠ "http") (h2 : u.scheme ≠ "https") :
    validate_url u = .error (schemeMsg u.scheme) := by
  simp only [validate_url]
  rw [if_neg (fun hcon => hcon.elim h1 h2)]

/-- Witness for claim C4 at the file scheme. -/
theorem validate_rejects_non_http_schemes_witness :
    validate_url ⟨"file", some (.domain ("example.com")), none⟩ = .error (schemeMsg ("file")) :=
  validate_rejects_non_http_schemes ⟨"file", some (.domain ("example.com")), none⟩
    (by decide) (by decide)

/-- Claim C5: for a URL that passes the scheme, host, metadata-host and
IP checks, validate_url returns the blocked-port error exactly when the
explicit port is in the denylist, and a URL without an explicit port
skips the port check and is returned unchanged. -/
theorem validate_port_check (u : ParsedUrl) (h : UrlHost)
    (hscheme : u.scheme = "http" ∨ u.scheme = "https")
    (hhost : u.host = some h)
    (hmeta : blocked_hosts.contains (hostStr h) = false)
    (hip : ∀ ip, ipAddrFromStr (hostStr h) = some ip → check_ip_allowed ip = .ok ()) :
    (∀ p, u.port = some p →
      (validate_url u = .error (blockedPortMsg p) ↔ dangerous_ports.contains p = true)) ∧
    (u.port = none → validate_url u = .ok u) := by
  obtain ⟨s, ho, po⟩ := u
  dsimp only at hscheme hhost ⊢
  subst hhost
  rw [validate_url_hostcase s h po hscheme, if_neg (by simpa using hmeta)]
  have hred :
      (match ipAddrFromStr (hostStr h) with
        | some ip =>
          match check_ip_allowed ip with
          | .error e => (.error e : Except String ParsedUrl)
          | .ok _ => portStep ⟨s, some h, po⟩
        | none => portStep ⟨s, some h, po⟩) = portStep ⟨s, some h, po⟩ := by
    cases heq : ipAddrFromStr (hostStr h) with
    | none => rfl
    | some ip =>
      dsimp only
      rw [hip ip heq]
  rw [hred]
  constructor
  · intro p hp
    subst hp
    simp only [portStep]
    by_cases hc : dangerous_ports.contains p = true
    · rw [if_pos hc]
      exact ⟨fun _ => hc, fun _ => rfl⟩
    · rw [if_neg hc]
      constructor
      · intro hcon
        simp at hcon
      · intro hcontra
        exact absurd hcontra hc
  · intro hp
    subst hp
    rfl

/-- Witness for claim C5 at port 22 on a public host. -/
theorem validate_port_check_witness :
    validate_url ⟨"http", some (.domain ("example.com")), some 22⟩ =
        .error (blockedPortMsg 22) ↔ dangerous_ports.contains 22 = true :=
  (validate_port_check ⟨"http", some (.domain ("example.com")), some 22⟩
    (.domain ("example.com")) (Or.inl rfl) rfl (by decide)
    (by
      intro ip hip
      rw [show ipAddrFromStr (hostStr (.domain ("example.com"))) = none from rfl] at hip
      cases hip)).1 22 rfl

/-- Claim C3: a parsed http or https URL whose host is neither a blocked
metadata literal nor an IP literal inside a blocked range, and whose
explicit port (when present) is not denylisted, is accepted by
validate_url and returned unchanged.  A domain host of a special-scheme
URL never reparses as an IP literal (the url crate host parser would
have produced the IP representation), which is recorded as the
hypothesis on the domain case. -/
theorem validate_accepts_public_urls (u : ParsedUrl) (h : UrlHost)
    (hscheme : u.scheme = "http" ∨ u.scheme = "https")
    (hhost : u.host = some h)
    (hmeta : blocked_hosts.contains (hostStr h) = false)
    (hdom : ∀ d, h = .domain d → ipAddrFromStr d = none)
    (h4 : ∀ n, h = .ipv4 n → n < 4294967296 ∧ ipInBlockedRanges (.v4 n) = false)
    (h6 : ∀ n, h = .ipv6 n → ipInBlockedRanges (.v6 n) = false)
    (hport : ∀ p, u.port = some p → dangerous_ports.contains p = false) :
    validate_url u = .ok u := by
  obtain ⟨s, ho, po⟩ := u
  dsimp only at hscheme hhost hport ⊢
  subst hhost
  rw [validate_url_hostcase s h po hscheme, if_neg (by simpa using hmeta)]
  have hportstep : portStep ⟨s, some h, po⟩ = .ok ⟨s, some h, po⟩ := by
    cases po with
    | none => rfl
    | some p =>
      simp only [portStep]
      rw [if_neg (by simpa using hport p rfl)]
  cases h with
  | domain d =>
    rw [show hostStr (.domain d) = d from rfl, hdom d rfl]
    exact hportstep
  | ipv4 n =>
    obtain ⟨hn, hblk⟩ := h4 n rfl
    rw [show hostStr (.ipv4 n) = String.mk (ipv4Chars n) from rfl, ipAddrFromStr_ipv4 n hn]
    dsimp only
    rw [check_ip_allowed_ok _ hblk]
    exact hportstep
  | ipv6 n =>
    have hbr : ipAddrFromStr (hostStr (.ipv6 n)) = none := by
      simp only [hostStr, ipAddrFromStr]
      simp [List.cons_append, ipAddrFromChars_bracket]
    rw [hbr]
    exact hportstep

/-- Witness for claim C3 at a public domain host on port 8443. -/
theorem validate_accepts_public_urls_witness :
    validate_url ⟨"https", some (.domain ("example.com")), some 8443⟩ =
      .ok ⟨"https", some (.domain ("example.com")), some 8443⟩ :=
  validate_accepts_public_urls ⟨"https", some (.domain ("example.com")), some 8443⟩
    (.domain ("example.com")) (Or.inr rfl) rfl (by decide)
    (by
      intro d hd
      cases hd
      rfl)
    (by intro n hn; cases hn)
    (by intro n hn; cases hn)
    (by
      intro p hp
      cases hp
      decide)

/-- Claim C1 (failing part): the IPv6 loopback literal URL
http://[::1]/ is accepted by validate_url even though the code lists
::1/128 among the blocked ranges and check_ip_allowed would reject the
address: the host string carries the square brackets of the URL host
serialization, so IpAddr parsing fails and the range check never runs
for IPv6 literals. -/
theorem ipv6_loopback_literal_accepted :
    validate_url ⟨"http", some (.ipv6 1), none⟩ = .ok ⟨"http", some (.ipv6 1), none⟩ ∧
    hostStr (.ipv6 1) = "[::1]" ∧
    ipInBlockedRanges (.v6 1) = true ∧
    check_ip_allowed (.v6 1) = .error (blockedIpMsg (.v6 1) ("::1/128")) :=
  ⟨rfl, rfl, rfl, rfl⟩

/-- Claim C2 (failing part): the first three blocked metadata literals
are rejected with the blocked-host error, but the denylist entry
fd00:ec2::254 can never match: the host string of the corresponding URL
is the bracketed form, and the URL is accepted. -/
theorem metadata_host_denylist_ipv6_gap :
    validate_url ⟨"http", some (.ipv4 2852039166), none⟩ =
        .error (blockedHostMsg ("169.254.169.254")) ∧
    validate_url ⟨"http", some (.domain ("metadata.google.internal")), none⟩ =
        .error (blockedHostMsg ("metadata.google.internal")) ∧
    validate_url ⟨"http", some (.ipv4 1684301000), none⟩ =
        .error (blockedHostMsg ("100.100.100.200")) ∧
    hostStr (.ipv6 336294982257581694735330614659971547732) = "[fd00:ec2::254]" ∧
    blocked_hosts.contains ("fd00:ec2::254") = true ∧
    validate_url ⟨"http", some (.ipv6 336294982257581694735330614659971547732), none⟩ =
      .ok ⟨"http", some (.ipv6 336294982257581694735330614659971547732), none⟩ :=
  ⟨rfl, rfl, rfl, rfl, rfl, rfl⟩

theorem invalid_name_head (k : String) :
    ("Invalid header name: " ++ squo ++ k ++ squo).data.head? = some ('I') := by
  rw [strData_append, strData_append, strData_append,
    show ("Invalid header name: ").data = 'I' :: ("nvalid header name: ").data from rfl]
  simp

theorem invalid_value_head (k : String) :
    ("Invalid header value for " ++ squo ++ k ++ squo).data.head? = some ('I') := by
  rw [strData_append, strData_append, strData_append,
    show ("Invalid header value for ").data = 'I' :: ("nvalid header value for ").data from rfl]
  simp

theorem methodErrMsg_head (m : String) : (methodErrMsg m).data.head? = some ('U') := by
  rw [methodErrMsg, strData_append, strData_append, strData_append,
    show ("Unsallowed HTTP method: ").data = 'U' :: ("nsallowed HTTP method: ").data from rfl]
  simp

theorem checkHeaders_error_head :
    ∀ hs e, checkHeaders hs = .error e → e.data.head? = some ('I') := by
  intro hs
  induction hs with
  | nil =>
    intro e he
    simp [checkHeaders] at he
  | cons kv rest ih =>
    obtain ⟨k, v⟩ := kv
    intro e he
    simp only [checkHeaders] at he
    by_cases hn : headerNameValid k = false
    · rw [if_pos hn] at he
      injection he with he'
      rw [← he']
      exact invalid_name_head k
    · rw [if_neg hn] at he
      by_cases hv : headerValueValid v = false
      · rw [if_pos hv] at he
        injection he with he'
        rw [← he']
        exact invalid_value_head k
      · rw [if_neg hv] at he
        exact ih e he

theorem methodFromBytes_allowed (s : String) (h : allowed_methods.contains s = true) :
    methodFromBytes s = some s := by
  have hmem : s ∈ allowed_methods := by simpa using h
  fin_cases hmem <;> rfl

/-- Claim C6: with a URL that passes validation, execute_api_request
returns the disallowed-method error exactly when the upper-cased method
is outside the allowed set; the check is case-insensitive, so get is
accepted while trace and connect are rejected. -/
theorem execute_method_check (u : ParsedUrl) (hs : List (String × String))
    (hvalid : validate_url u = .ok u) :
    (∀ m, execute_request_pre m u hs = .error (methodErrMsg m) ↔
      allowed_methods.contains (toUpperStr m) = false) ∧
    toUpperStr ("get") = "GET" ∧
    execute_request_pre ("get") u hs ≠ .error (methodErrMsg ("get")) ∧
    execute_request_pre ("trace") u hs = .error (methodErrMsg ("trace")) ∧
    execute_request_pre ("connect") u hs = .error (methodErrMsg ("connect")) := by
  have main : ∀ m, execute_request_pre m u hs = .error (methodErrMsg m) ↔
      allowed_methods.contains (toUpperStr m) = false := by
    intro m
    simp only [execute_request_pre, hvalid]
    by_cases hc : allowed_methods.contains (toUpperStr m) = false
    · rw [if_pos hc]
      exact ⟨fun _ => hc, fun _ => rfl⟩
    · rw [if_neg hc]
      rw [Bool.not_eq_false] at hc
      constructor
      · intro hcon
        exfalso
        cases hh : checkHeaders hs with
        | error e =>
          rw [hh] at hcon
          dsimp only at hcon
          injection hcon with he'
          have h1 := checkHeaders_error_head hs e hh
          rw [he', methodErrMsg_head m] at h1
          simp at h1
        | ok a =>
          rw [hh] at hcon
          dsimp only at hcon
          rw [methodFromBytes_allowed _ hc] at hcon
          simp at hcon
      · intro hcontra
        rw [hcontra] at hc
        cases hc
  refine ⟨main, rfl, ?_, ?_, ?_⟩
  · intro hcon
    exact absurd ((main ("get")).mp hcon) (by decide)
  · exact (main ("trace")).mpr (by decide)
  · exact (main ("connect")).mpr (by decide)

/-- Witness for claim C6 on a validated public URL with no headers. -/
theorem execute_method_check_witness :
    execute_request_pre ("trace") ⟨"https", some (.domain ("example.com")), none⟩ [] =
      .error (methodErrMsg ("trace")) :=
  (execute_method_check ⟨"https", some (.domain ("example.com")), none⟩ [] (by rfl)).2.2.2.1

/-- Claim C10: once the upper-cased method has passed the allowed-set
check, the Method::from_bytes conversion cannot fail, so its error
branch in execute_api_request is unreachable. -/
theorem method_from_bytes_total_on_allowed (m : String)
    (h : allowed_methods.contains (toUpperStr m) = true) :
    methodFromBytes (toUpperStr m) ≠ none := by
  rw [methodFromBytes_allowed _ h]
  simp

/-- Witness for claim C10 at the delete method. -/
theorem method_from_bytes_total_on_allowed_witness :
    methodFromBytes (toUpperStr ("delete")) ≠ none :=
  method_from_bytes_total_on_allowed ("delete") (by decide)

/-- Claim C7: in the response phase of execute_api_request a body of
exactly 10 MB is accepted and returned in the ApiResponse, while a body
one byte larger is rejected with the size error. -/
theorem execute_body_size_boundary (r : HttpResponse) (d : Nat) :
    (r.bodyBytes.length = MAX_BODY_BYTES →
      execute_response_phase r d =
        .ok ⟨r.status, r.canonicalReason.getD ("Unknown"), r.headers,
          utf8DecodeLossy r.bodyBytes, d⟩) ∧
    (r.bodyBytes.length = MAX_BODY_BYTES + 1 →
      execute_response_phase r d = .error ("Response body exceeds 10MB limit.")) := by
  constructor
  · intro hlen
    simp only [execute_response_phase]
    rw [if_neg (by omega)]
  · intro hlen
    simp only [execute_response_phase]
    rw [if_pos (by omega)]

/-- Witness for claim C7 at all-zero bodies of the two boundary sizes. -/
theorem execute_body_size_boundary_witness :
    execute_response_phase ⟨200, some ("OK"), [], List.replicate MAX_BODY_BYTES 0⟩ 0 =
      .ok ⟨200, "OK", [], utf8DecodeLossy (List.replicate MAX_BODY_BYTES 0), 0⟩ ∧
    execute_response_phase ⟨200, some ("OK"), [], List.replicate (MAX_BODY_BYTES + 1) 0⟩ 0 =
      .error ("Response body exceeds 10MB limit.") := by
  constructor
  · exact (execute_body_size_boundary ⟨200, some ("OK"), [],
      List.replicate MAX_BODY_BYTES 0⟩ 0).1 (by simp)
  · exact (execute_body_size_boundary ⟨200, some ("OK"), [],
      List.replicate (MAX_BODY_BYTES + 1) 0⟩ 0).2 (by simp)

/-- Claim C8: fetch_spec turns every non-2xx status into a hard error
carrying the numeric status regardless of the body, while
execute_api_request returns 4xx and 5xx responses as ordinary successful
ApiResponse values. -/
theorem fetch_status_vs_execute_status (r : HttpResponse) (d : Nat) :
    (¬(200 ≤ r.status ∧ r.status < 300) →
      fetch_spec_response_phase r = .error ("Failed to fetch spec: HTTP " ++ natRepr r.status)) ∧
    (400 ≤ r.status → r.bodyBytes.length ≤ MAX_BODY_BYTES →
      execute_response_phase r d =
        .ok ⟨r.status, r.canonicalReason.getD ("Unknown"), r.headers,
          utf8DecodeLossy r.bodyBytes, d⟩) := by
  constructor
  · intro hst
    simp only [fetch_spec_response_phase]
    rw [if_pos hst]
  · intro _ hlen
    simp only [execute_response_phase]
    rw [if_neg (by omega)]

/-- Witness for claim C8 at a 404 response with a well-formed body. -/
theorem fetch_status_vs_execute_status_witness :
    fetch_spec_response_phase ⟨404, some ("Not Found"), [], []⟩ =
        .error ("Failed to fetch spec: HTTP " ++ natRepr 404) ∧
    execute_response_phase ⟨404, some ("Not Found"), [], []⟩ 0 =
      .ok ⟨404, "Not Found", [], utf8DecodeLossy [], 0⟩ := by
  constructor
  · exact (fetch_status_vs_execute_status ⟨404, some ("Not Found"), [], []⟩ 0).1 (by decide)
  · exact (fetch_status_vs_execute_status ⟨404, some ("Not Found"), [], []⟩ 0).2 (by decide)
      (by decide)


theorem utf8EncodeChar_ne_nil (v : Nat) : utf8EncodeChar v ≠ [] := by
  simp only [utf8EncodeChar]
  split
  · simp
  · split
    · simp
    · split <;> simp

theorem decodeOne_encodeChar (v : Nat) (hv : IsScalar v) (bs : List Nat) :
    decodeOne (utf8EncodeChar v ++ bs) = some (v, bs) := by
  have hv' : v < 55296 ∨ (57344 ≤ v ∧ v < 1114112) := hv
  by_cases h1 : v < 128
  · rw [utf8EncodeChar, if_pos h1]
    simp only [List.cons_append, List.nil_append, decodeOne]
    rw [if_pos h1]
  · by_cases h2 : v < 2048
    · rw [utf8EncodeChar, if_neg h1, if_pos h2]
      simp only [List.cons_append, List.nil_append, decodeOne, decodeTwo]
      rw [if_neg (by omega), if_pos (show 194 ≤ 192 + v / 64 ∧ 192 + v / 64 ≤ 223 by omega),
        if_pos (show isCont (128 + v % 64) from ⟨by omega, by omega⟩),
        show (192 + v / 64 - 192) * 64 + (128 + v % 64 - 128) = v from by omega]
    · by_cases h3 : v < 65536
      · rw [utf8EncodeChar, if_neg h1, if_neg h2, if_pos h3]
        simp only [List.cons_append, List.nil_append, decodeOne, decodeThree]
        rw [if_neg (by omega), if_neg (by omega),
          if_pos (show 224 ≤ 224 + v / 4096 ∧ 224 + v / 4096 ≤ 239 by omega)]
        rw [if_pos ?hcond]
        case hcond =>
          refine ⟨⟨by omega, by omega⟩, ⟨by omega, by omega⟩, by omega, by omega⟩
        rw [show (224 + v / 4096 - 224) * 4096 + (128 + v / 64 % 64 - 128) * 64 +
          (128 + v % 64 - 128) = v from by omega]
      · have h4 : v < 1114112 := by omega
        rw [utf8EncodeChar, if_neg h1, if_neg h2, if_neg h3]
        simp only [List.cons_append, List.nil_append, decodeOne, decodeFour]
        rw [if_neg (by omega), if_neg (by omega), if_neg (by omega),
          if_pos (show 240 ≤ 240 + v / 262144 ∧ 240 + v / 262144 ≤ 244 by omega)]
        rw [if_pos ?hcond4]
        case hcond4 =>
          exact ⟨⟨by omega, by omega⟩, ⟨by omega, by omega⟩, ⟨by omega, by omega⟩,
            by omega, by omega⟩
        rw [show (240 + v / 262144 - 240) * 262144 + (128 + v / 4096 % 64 - 128) * 4096 +
          (128 + v / 64 % 64 - 128) * 64 + (128 + v % 64 - 128) = v from by omega]

theorem utf8Decode_nil : utf8Decode [] = some [] := by
  rw [utf8Decode]

theorem utf8Decode_step (bs : List Nat) (w : Nat) (rest : List Nat)
    (h : decodeOne bs = some (w, rest)) :
    utf8Decode bs = (utf8Decode rest).map (w :: ·) := by
  cases bs with
  | nil => simp [decodeOne] at h
  | cons b0 rest0 =>
    rw [utf8Decode]
    split
    · next w' rest' heq =>
      rw [h] at heq
      simp only [Option.some.injEq, Prod.mk.injEq] at heq
      obtain ⟨h1, h2⟩ := heq
      rw [h1, h2]
    · next heq =>
      rw [h] at heq
      cases heq

theorem utf8Decode_fail (bs : List Nat) (hne : bs ≠ []) (h : decodeOne bs = none) :
    utf8Decode bs = none := by
  cases bs with
  | nil => exact absurd rfl hne
  | cons b0 rest0 =>
    rw [utf8Decode]
    split
    · next w' rest' heq =>
      rw [h] at heq
      cases heq
    · rfl

theorem utf8DecodeLossy_nil : utf8DecodeLossy [] = [] := by
  rw [utf8DecodeLossy]

theorem utf8DecodeLossy_step (bs : List Nat) (w : Nat) (rest : List Nat)
    (h : decodeOne bs = some (w, rest)) :
    utf8DecodeLossy bs = w :: utf8DecodeLossy rest := by
  cases bs with
  | nil => simp [decodeOne] at h
  | cons b0 rest0 =>
    rw [utf8DecodeLossy]
    split
    · next w' rest' heq =>
      rw [h] at heq
      simp only [Option.some.injEq, Prod.mk.injEq] at heq
      obtain ⟨h1, h2⟩ := heq
      rw [h1, h2]
    · next heq =>
      rw [h] at heq
      cases heq

theorem utf8DecodeLossy_fail (bs : List Nat) (hne : bs ≠ []) (h : decodeOne bs = none) :
    utf8DecodeLossy bs = 65533 :: utf8DecodeLossy (skipInvalid bs) := by
  cases bs with
  | nil => exact absurd rfl hne
  | cons b0 rest0 =>
    rw [utf8DecodeLossy]
    split
    · next w' rest' heq =>
      rw [h] at heq
      cases heq
    · rfl

theorem utf8Decode_encode (vs : List Nat) (h : ScalarList vs) :
    utf8Decode (utf8Encode vs) = some vs := by
  induction vs with
  | nil => exact utf8Decode_nil
  | cons v ws ih =>
    rw [utf8Encode,
      utf8Decode_step _ v (utf8Encode ws) (decodeOne_encodeChar v (h v (by simp)) _),
      ih (fun x hx => h x (by simp [hx]))]
    rfl

theorem decodeTwo_sound (b0 : Nat) (l : List Nat) (w : Nat) (r : List Nat)
    (hb : 194 ≤ b0 ∧ b0 ≤ 223) (h : decodeTwo b0 l = some (w, r)) :
    IsScalar w ∧ utf8EncodeChar w ++ r = b0 :: l := by
  cases l with
  | nil => simp [decodeTwo] at h
  | cons b1 r1 =>
    simp only [decodeTwo] at h
    split at h
    · next hc =>
      obtain ⟨hc1, hc2⟩ := hc
      simp only [Option.some.injEq, Prod.mk.injEq] at h
      obtain ⟨hw, hr⟩ := h
      subst hw
      subst hr
      refine ⟨Or.inl (by omega), ?_⟩
      rw [utf8EncodeChar, if_neg (by omega), if_pos (by omega)]
      simp only [List.cons_append, List.nil_append, List.cons.injEq]
      exact ⟨by omega, by omega, trivial⟩
    · simp at h

theorem decodeThree_sound (b0 : Nat) (l : List Nat) (w : Nat) (r : List Nat)
    (hb : 224 ≤ b0 ∧ b0 ≤ 239) (h : decodeThree b0 l = some (w, r)) :
    IsScalar w ∧ utf8EncodeChar w ++ r = b0 :: l := by
  match l with
  | [] => simp [decodeThree] at h
  | [b1] => simp [decodeThree] at h
  | b1 :: b2 :: r2 =>
    simp only [decodeThree] at h
    split at h
    · next hc =>
      obtain ⟨⟨hc1, hc2⟩, ⟨hd1, hd2⟩, hw1, hw2⟩ := hc
      simp only [Option.some.injEq, Prod.mk.injEq] at h
      obtain ⟨hw, hr⟩ := h
      subst hw
      subst hr
      refine ⟨?_, ?_⟩
      · rcases hw2 with hlt | hge
        · exact Or.inl hlt
        · exact Or.inr ⟨hge, by omega⟩
      · rw [utf8EncodeChar, if_neg (by omega), if_neg (by omega), if_pos (by omega)]
        simp only [List.cons_append, List.nil_append, List.cons.injEq]
        exact ⟨by omega, by omega, by omega, trivial⟩
    · simp at h

theorem decodeFour_sound (b0 : Nat) (l : List Nat) (w : Nat) (r : List Nat)
    (hb : 240 ≤ b0 ∧ b0 ≤ 244) (h : decodeFour b0 l = some (w, r)) :
    IsScalar w ∧ utf8EncodeChar w ++ r = b0 :: l := by
  match l with
  | [] => simp [decodeFour] at h
  | [b1] => simp [decodeFour] at h
  | [b1, b2] => simp [decodeFour] at h
  | b1 :: b2 :: b3 :: r3 =>
    simp only [decodeFour] at h
    split at h
    · next hc =>
      obtain ⟨⟨hc1, hc2⟩, ⟨hd1, hd2⟩, ⟨he1, he2⟩, hw1, hw2⟩ := hc
      simp only [Option.some.injEq, Prod.mk.injEq] at h
      obtain ⟨hw, hr⟩ := h
      subst hw
      subst hr
      refine ⟨Or.inr ⟨by omega, hw2⟩, ?_⟩
      rw [utf8EncodeChar, if_neg (by omega), if_neg (by omega), if_neg (by omega)]
      simp only [List.cons_append, List.nil_append, List.cons.injEq]
      exact ⟨by omega, by omega, by omega, by omega, trivial⟩
    · simp at h

theorem decodeOne_sound (bs : List Nat) (w : Nat) (r : List Nat)
    (h : decodeOne bs = some (w, r)) :
    IsScalar w ∧ utf8EncodeChar w ++ r = bs := by
  cases bs with
  | nil => simp [decodeOne] at h
  | cons b0 rest =>
    simp only [decodeOne] at h
    split at h
    · next h1 =>
      simp only [Option.some.injEq, Prod.mk.injEq] at h
      obtain ⟨hw, hr⟩ := h
      subst hw
      subst hr
      refine ⟨Or.inl (by omega), ?_⟩
      rw [utf8EncodeChar, if_pos h1]
      simp
    · split at h
      · next h2 => exact decodeTwo_sound b0 rest w r h2 h
      · split at h
        · next h3 => exact decodeThree_sound b0 rest w r h3 h
        · split at h
          · next h4 => exact decodeFour_sound b0 rest w r h4 h
          · simp at h

theorem utf8Decode_sound_bounded :
    ∀ n bs, List.length bs ≤ n → ∀ vs, utf8Decode bs = some vs →
      ScalarList vs ∧ utf8Encode vs = bs := by
  intro n
  induction n with
  | zero =>
    intro bs hlen vs hv
    have hbs : bs = [] := List.eq_nil_of_length_eq_zero (by omega)
    subst hbs
    rw [utf8Decode_nil] at hv
    injection hv with hv'
    subst hv'
    exact ⟨fun x hx => absurd hx (List.not_mem_nil x), rfl⟩
  | succ n ih =>
    intro bs hlen vs hv
    cases bs with
    | nil =>
      rw [utf8Decode_nil] at hv
      injection hv with hv'
      subst hv'
      exact ⟨fun x hx => absurd hx (List.not_mem_nil x), rfl⟩
    | cons b0 rest0 =>
      cases hdec : decodeOne (b0 :: rest0) with
      | none =>
        rw [utf8Decode_fail _ (by simp) hdec] at hv
        cases hv
      | some pr =>
        obtain ⟨w, rest⟩ := pr
        rw [utf8Decode_step _ w rest hdec] at hv
        cases hrec : utf8Decode rest with
        | none =>
          rw [hrec] at hv
          cases hv
        | some ws =>
          rw [hrec] at hv
          simp only [Option.map_some', Option.some.injEq] at hv
          subst hv
          have hlen2 : rest.length ≤ n := by
            have := decodeOne_length _ _ _ hdec
            simp only [List.length_cons] at this hlen
            omega
          obtain ⟨hs, he⟩ := ih rest hlen2 ws hrec
          obtain ⟨hw, hbs'⟩ := decodeOne_sound _ _ _ hdec
          refine ⟨?_, ?_⟩
          · intro x hx
            rcases List.mem_cons.mp hx with hx' | hx'
            · rw [hx']
              exact hw
            · exact hs x hx'
          · rw [utf8Encode, he, hbs']

theorem utf8Decode_sound (bs vs : List Nat) (h : utf8Decode bs = some vs) :
    ScalarList vs ∧ utf8Encode vs = bs :=
  utf8Decode_sound_bounded bs.length bs le_rfl vs h

theorem utf8DecodeLossy_agrees_bounded :
    ∀ n bs, List.length bs ≤ n → ∀ vs, utf8Decode bs = some vs → utf8DecodeLossy bs = vs := by
  intro n
  induction n with
  | zero =>
    intro bs hlen vs hv
    have hbs : bs = [] := List.eq_nil_of_length_eq_zero (by omega)
    subst hbs
    rw [utf8Decode_nil] at hv
    injection hv with hv'
    subst hv'
    exact utf8DecodeLossy_nil
  | succ n ih =>
    intro bs hlen vs hv
    cases bs with
    | nil =>
      rw [utf8Decode_nil] at hv
      injection hv with hv'
      subst hv'
      exact utf8DecodeLossy_nil
    | cons b0 rest0 =>
      cases hdec : decodeOne (b0 :: rest0) with
      | none =>
        rw [utf8Decode_fail _ (by simp) hdec] at hv
        cases hv
      | some pr =>
        obtain ⟨w, rest⟩ := pr
        rw [utf8Decode_step _ w rest hdec] at hv
        cases hrec : utf8Decode rest with
        | none =>
          rw [hrec] at hv
          cases hv
        | some ws =>
          rw [hrec] at hv
          simp only [Option.map_some', Option.some.injEq] at hv
          subst hv
          have hlen2 : rest.length ≤ n := by
            have := decodeOne_length _ _ _ hdec
            simp only [List.length_cons] at this hlen
            omega
          rw [utf8DecodeLossy_step _ w rest hdec, ih rest hlen2 ws hrec]

theorem utf8DecodeLossy_agrees (bs vs : List Nat) (h : utf8Decode bs = some vs) :
    utf8DecodeLossy bs = vs :=
  utf8DecodeLossy_agrees_bounded bs.length bs le_rfl vs h

theorem utf8DecodeLossy_replacement_bounded :
    ∀ n bs, List.length bs ≤ n → utf8Decode bs = none → 65533 ∈ utf8DecodeLossy bs := by
  intro n
  induction n with
  | zero =>
    intro bs hlen hv
    have hbs : bs = [] := List.eq_nil_of_length_eq_zero (by omega)
    subst hbs
    rw [utf8Decode_nil] at hv
    cases hv
  | succ n ih =>
    intro bs hlen hv
    cases bs with
    | nil =>
      rw [utf8Decode_nil] at hv
      cases hv
    | cons b0 rest0 =>
      cases hdec : decodeOne (b0 :: rest0) with
      | none =>
        rw [utf8DecodeLossy_fail _ (by simp) hdec]
        simp
      | some pr =>
        obtain ⟨w, rest⟩ := pr
        rw [utf8Decode_step _ w rest hdec] at hv
        cases hrec : utf8Decode rest with
        | some ws =>
          rw [hrec] at hv
          cases hv
        | none =>
          have hlen2 : rest.length ≤ n := by
            have := decodeOne_length _ _ _ hdec
            simp only [List.length_cons] at this hlen
            omega
          rw [utf8DecodeLossy_step _ w rest hdec]
          exact List.mem_cons_of_mem w (ih rest hlen2 hrec)

theorem utf8DecodeLossy_replacement (bs : List Nat) (h : utf8Decode bs = none) :
    65533 ∈ utf8DecodeLossy bs :=
  utf8DecodeLossy_replacement_bounded bs.length bs le_rfl h

/-- Claim C9: within the size cap, fetch_spec fails with the
invalid-encoding error exactly when the body bytes are not the UTF-8
encoding of any sequence of scalar values, while execute_api_request
decodes the same body lossily and always succeeds: the lossy decode
agrees with the strict one whenever the latter exists and inserts the
replacement character whenever it does not. -/
theorem fetch_strict_utf8_vs_execute_lossy (r : HttpResponse) (d : Nat)
    (hst : 200 ≤ r.status ∧ r.status < 300)
    (hlen : r.bodyBytes.length ≤ MAX_SPEC_BYTES) :
    (fetch_spec_response_phase r = .error ("Spec content is not valid UTF-8.") ↔
      ¬∃ vs, ScalarList vs ∧ utf8Encode vs = r.bodyBytes) ∧
    execute_response_phase r d =
      .ok ⟨r.status, r.canonicalReason.getD ("Unknown"), r.headers,
        utf8DecodeLossy r.bodyBytes, d⟩ ∧
    (∀ vs, utf8Decode r.bodyBytes = some vs → utf8DecodeLossy r.bodyBytes = vs) ∧
    (utf8Decode r.bodyBytes = none → 65533 ∈ utf8DecodeLossy r.bodyBytes) := by
  have hspec : MAX_SPEC_BYTES ≤ MAX_BODY_BYTES := by decide
  refine ⟨?_, ?_, fun vs h => utf8DecodeLossy_agrees _ vs h,
    fun h => utf8DecodeLossy_replacement _ h⟩
  · simp only [fetch_spec_response_phase]
    rw [if_neg (by omega), if_neg (by omega)]
    cases hdec : utf8Decode r.bodyBytes with
    | some vs =>
      dsimp only
      constructor
      · intro hcon
        cases hcon
      · intro hno
        obtain ⟨hs, he⟩ := utf8Decode_sound _ _ hdec
        exact absurd ⟨vs, hs, he⟩ hno
    | none =>
      dsimp only
      constructor
      · rintro - ⟨vs, hs, he⟩
        rw [← he, utf8Decode_encode vs hs] at hdec
        cases hdec
      · intro _
        rfl
  · simp only [execute_response_phase]
    rw [if_neg (by omega)]

/-- Witness for claim C9 at a two-byte body that is not valid UTF-8. -/
theorem fetch_strict_utf8_vs_execute_lossy_witness :
    (fetch_spec_response_phase ⟨200, none, [], [195, 40]⟩ =
        .error ("Spec content is not valid UTF-8.") ↔
      ¬∃ vs, ScalarList vs ∧ utf8Encode vs = [195, 40]) ∧
    execute_response_phase ⟨200, none, [], [195, 40]⟩ 0 =
      .ok ⟨200, "Unknown", [], utf8DecodeLossy [195, 40], 0⟩ ∧
    (∀ vs, utf8Decode [195, 40] = some vs → utf8DecodeLossy [195, 40] = vs) ∧
    (utf8Decode [195, 40] = none → 65533 ∈ utf8DecodeLossy [195, 40]) :=
  fetch_strict_utf8_vs_execute_lossy ⟨200, none, [], [195, 40]⟩ 0 (by decide) (by decide)
